import Mathlib

/-!
Verification of the PPO trainer core (`user_define/model.py`, `Trainer/worker.py`).

The numerical pipeline (`preprocess_data`, the loss computation in `train_model`)
is embedded over the real numbers: numpy/torch float arrays become `List ℝ`,
elementwise broadcast operations become `List.map` / `List.zipWith` / indexed
access with `List.getD` (numpy indexing within bounds; the default is never
reached at in-range indices).  The checkpoint logic (`save_model` / `load_model`)
is embedded with explicit Python-exception results, and the optimizer phase of
`train_model` as an explicit state-passing sequence.
-/

namespace RLFramework

/-! Section: numpy reductions `mean`, `var`, `std` (population, ddof = 0). -/

/-- Embeds `np.mean`: sum of the elements divided by the length. -/
noncomputable def npMean (xs : List ℝ) : ℝ := xs.sum / xs.length

/-- Embeds `np.var` (population variance): mean of the squared deviations from the mean. -/
noncomputable def npVar (xs : List ℝ) : ℝ :=
  ((xs.map (fun x => (x - npMean xs) ^ 2)).sum) / xs.length

/-- Embeds `np.std`: square root of the population variance. -/
noncomputable def npStd (xs : List ℝ) : ℝ := Real.sqrt (npVar xs)

/-! Section: `ModelWrapper.preprocess_data` (model.py lines 63-90).

`values` and `next_values` are the critic outputs computed inside the
`torch.no_grad()` block; they enter the embedding as input lists. -/

/-- Computes `delta = rewards + GAMMA * next_values * (1 - dones) - values`
(model.py line 73), elementwise over the batch indices. -/
noncomputable def deltaList (gamma : ℝ) (rewards dones values nextValues : List ℝ) :
    List ℝ :=
  (List.range rewards.length).map (fun t =>
    rewards.getD t 0 + gamma * nextValues.getD t 0 * (1 - dones.getD t 0)
      - values.getD t 0)

/-- The loop `for i in reversed(range(len(rewards)))` of model.py lines 75-80.
`gaeLoop γ λ delta dones k (gae, advantages)` runs the remaining iterations
`i = k-1, k-2, ..., 0`, carrying the scalar `gae` and the `advantages` array. -/
noncomputable def gaeLoop (gamma lam : ℝ) (delta dones : List ℝ) :
    ℕ → ℝ × List ℝ → ℝ × List ℝ
  | 0, st => st
  | k + 1, st =>
    let g := delta.getD k 0 + gamma * lam * (1 - dones.getD k 0) * st.1
    gaeLoop gamma lam delta dones k (g, st.2.set k g)

/-- The pre-normalization advantages: `advantages = np.zeros_like(rewards)`,
then the backward GAE loop starting from `gae = 0.0`. -/
noncomputable def rawAdvantages (gamma lam : ℝ)
    (rewards dones values nextValues : List ℝ) : List ℝ :=
  (gaeLoop gamma lam (deltaList gamma rewards dones values nextValues) dones
    rewards.length (0, List.replicate rewards.length 0)).2

/-- Embeds `ModelWrapper.preprocess_data` from the GAE loop onward: the
`std` branch on `advantages.shape[0] > 1`, the normalization
`(advantages - advantages.mean()) / std`, and `td_target = normalized + values`.
Returns `(normalized_advantage, td_target)`. -/
noncomputable def preprocess_data (gamma lam : ℝ)
    (rewards dones values nextValues : List ℝ) : List ℝ × List ℝ :=
  let advantages := rawAdvantages gamma lam rewards dones values nextValues
  let std : ℝ := if 1 < advantages.length then npStd advantages + 1e-8 else 1
  let normalized := advantages.map (fun a => (a - npMean advantages) / std)
  (normalized, List.zipWith (· + ·) normalized values)

/-- The closed-form backward recurrence that the loop implements:
`adv t = delta[t] + γ·λ·(1 - dones[t]) · adv (t+1)` for `t < T`, and `0` from
`T` on (the loop's initial `gae = 0`). -/
noncomputable def advClosed (gamma lam : ℝ) (delta dones : List ℝ) (T : ℕ) :
    ℕ → ℝ :=
  fun t =>
    if t < T then
      delta.getD t 0 + gamma * lam * (1 - dones.getD t 0)
        * advClosed gamma lam delta dones T (t + 1)
    else 0
termination_by t => T - t

/-! Section: `ModelWrapper.train_model`, the loss computation (model.py lines 96-104).

`newLogProb` stands for `batch_pi_dist.log_prob(batch_action)`, the
log-probabilities from the current policy's forward pass; `value` stands for
`self.critic(batch_state)`.  Both enter the embedding as input lists. -/

/-- The loss computation of `train_model`: `ratio = exp(new_log_prob -
old_log_prob)`, `policy_gradient = ratio * advantage`,
`clipped = clamp(ratio, 1-EPS_CLIP, 1+EPS_CLIP) * advantage`,
`actor_loss = -min(policy_gradient, clipped).mean()`, and
`critic_loss = F.mse_loss(td_target, value)`.  Returns
`(actor_loss, critic_loss)`. -/
noncomputable def train_model_losses (epsClip : ℝ)
    (advantage tdTarget oldLogProb newLogProb value : List ℝ) : ℝ × ℝ :=
  let ratio := List.zipWith (fun n o => Real.exp (n - o)) newLogProb oldLogProb
  let policy_gradient := List.zipWith (· * ·) ratio advantage
  let clipped := List.zipWith
    (fun r a => min (max r (1 - epsClip)) (1 + epsClip) * a) ratio advantage
  let actor_loss := -(npMean (List.zipWith min policy_gradient clipped))
  let critic_loss := npMean (List.zipWith (fun t v => (t - v) ^ 2)
    tdTarget value)
  (actor_loss, critic_loss)

/-! Section: `ModelWrapper.train_model`, the optimizer phase (model.py lines 106-112).

The parameter types `P` (network parameters) and `O` (Adam moment
accumulators) are abstract; gradient buffers are scalars accumulated
additively, matching autograd's `backward` accumulation.  `gA` is the gradient
of `actor_loss`: its compute graph (`ratio` from the actor forward pass times
the constant advantage array) contains only actor parameters, so `backward`
writes only the actor buffers; symmetrically `gC` for `critic_loss`.
`stepA`/`stepC` are the optimizer updates; `optim.Adam(self.actor.parameters())`
reads and writes only the actor parameters and its own moments. -/

structure OptPhaseState (P O : Type) where
  actorParams : P
  criticParams : P
  actorGrad : ℝ
  criticGrad : ℝ
  actorOpt : O
  criticOpt : O

/-- Runs `self.actor_optimizer.zero_grad(); actor_loss.backward();
self.actor_optimizer.step()`. -/
def actor_phase {P O : Type} (stepA : P → ℝ → O → P × O) (gA : ℝ)
    (s : OptPhaseState P O) : OptPhaseState P O :=
  let s1 := { s with actorGrad := 0 }
  let s2 := { s1 with actorGrad := s1.actorGrad + gA }
  { s2 with
    actorParams := (stepA s2.actorParams s2.actorGrad s2.actorOpt).1
    actorOpt := (stepA s2.actorParams s2.actorGrad s2.actorOpt).2 }

/-- Runs `self.critic_optimizer.zero_grad(); critic_loss.backward();
self.critic_optimizer.step()`. -/
def critic_phase {P O : Type} (stepC : P → ℝ → O → P × O) (gC : ℝ)
    (s : OptPhaseState P O) : OptPhaseState P O :=
  let s1 := { s with criticGrad := 0 }
  let s2 := { s1 with criticGrad := s1.criticGrad + gC }
  { s2 with
    criticParams := (stepC s2.criticParams s2.criticGrad s2.criticOpt).1
    criticOpt := (stepC s2.criticParams s2.criticGrad s2.criticOpt).2 }

/-- The optimizer phase of `train_model`: actor phase first, then critic
phase, in the source's order. -/
def train_model_opt_phase {P O : Type} (stepA stepC : P → ℝ → O → P × O)
    (gA gC : ℝ) (s : OptPhaseState P O) : OptPhaseState P O :=
  critic_phase stepC gC (actor_phase stepA gA s)

/-! Section: `save_model` and `load_model` (model.py lines 28-53).

A network's `state_dict` is modelled as an architecture signature (`shape`,
standing for the key set and tensor shapes) plus the weights.
`load_state_dict` succeeds exactly when the signatures agree and otherwise
raises, matching torch's strict loading; `[...]` on a missing dict key raises
`KeyError`; a missing file makes `torch.load` raise `FileNotFoundError`,
which is the only exception the `try/except` in `load_model` catches. -/

structure StateDict where
  shape : ℕ
  weights : List ℚ
deriving DecidableEq

/-- A network as held by an attribute: either the bare module or a
distributed wrapper holding it in `.module`. -/
inductive Network where
  | raw (sd : StateDict)
  | wrapped (module : StateDict)
deriving DecidableEq

/-- Models `getattr(x, "module", x)`: unwrap a distributed wrapper, if any. -/
def Network.unwrapped : Network → StateDict
  | .raw sd => sd
  | .wrapped sd => sd

/-- The checkpoint blob written by `torch.save`: the mapping
`{"actor": ..., "critic": ...}`.  A field with `none` models a blob missing
that key (indexing it raises `KeyError`). -/
structure Checkpoint where
  actor : Option StateDict
  critic : Option StateDict
deriving DecidableEq

/-- Exceptions that can propagate out of `load_model`. -/
inductive PyError where
  | keyError
  | loadMismatch
deriving DecidableEq

/-- Models `d[k]` on the checkpoint mapping: `KeyError` when the key is absent. -/
def dictGet : Option StateDict → Except PyError StateDict
  | none => .error .keyError
  | some sd => .ok sd

/-- Models `net.load_state_dict(sd)`: strict loading; mismatched keys or tensor
shapes raise, a match replaces the parameters wholesale. -/
def load_state_dict (current sd : StateDict) : Except PyError StateDict :=
  if sd.shape = current.shape then .ok sd else .error .loadMismatch

/-- The two networks owned by a `ModelWrapper`. -/
structure ModelState where
  actor : StateDict
  critic : StateDict
deriving DecidableEq

/-- How a `load_model` call finished. -/
inductive LoadOutcome where
  | success
  | missingFile
  | raised (e : PyError)
deriving DecidableEq

/-- Embeds `ModelWrapper.save_model`: unwrap each network and write the two-key
blob. -/
def save_model (actor critic : Network) : Checkpoint :=
  { actor := some actor.unwrapped, critic := some critic.unwrapped }

/-- Embeds `ModelWrapper.load_model` over a read-only file system
`fs : String → Option Checkpoint` (`none` = the file does not exist).
Follows the source statement by statement: `torch.load(path)["actor"]` into
the actor, then `torch.load(path)["critic"]` into the critic, inside a
`try/except FileNotFoundError`.  Mutations made before an uncaught exception
persist, as in Python. -/
def load_model (fs : String → Option Checkpoint) (path : String)
    (m : ModelState) : ModelState × LoadOutcome :=
  match fs path with
  | none => (m, .missingFile)
  | some ckpt =>
    match dictGet ckpt.actor with
    | .error e => (m, .raised e)
    | .ok sdA =>
      match load_state_dict m.actor sdA with
      | .error e => (m, .raised e)
      | .ok newA =>
        let m1 : ModelState := { m with actor := newA }
        match fs path with
        | none => (m1, .missingFile)
        | some ckpt2 =>
          match dictGet ckpt2.critic with
          | .error e => (m1, .raised e)
          | .ok sdC =>
            match load_state_dict m1.critic sdC with
            | .error e => (m1, .raised e)
            | .ok newC => ({ m1 with critic := newC }, .success)

/-! Section: `Worker` (worker.py).

`Worker.train_model` and `Worker.save_model` delegate to `self.model`
(the `ModelWrapper`), which reads its own `actor` / `critic` attributes.
`Worker.prepare_model` iterates over `self.model.get_model()` and executes
`setattr(self, k, train.torch.prepare_model(model_dict[k]))`: the wrapped
networks are bound to new attributes on the `Worker` object itself. -/

structure Worker where
  model : ModelState
  actorAttr : Option Network
  criticAttr : Option Network
deriving DecidableEq

/-- Embeds `Worker.prepare_model` with the ray adapter `train.torch.prepare_model`
abstracted as `wrap`. -/
def prepare_model (wrap : StateDict → Network) (w : Worker) : Worker :=
  { w with
    actorAttr := some (wrap w.model.actor)
    criticAttr := some (wrap w.model.critic) }

/-- The networks a subsequent `Worker.train_model` / `Worker.save_model`
call operates on: both delegate to `self.model`. -/
def Worker.activeNetworks (w : Worker) : ModelState := w.model

/-! Section: list access helper lemmas. -/

lemma getD_set_self (l : List ℝ) (i : ℕ) (a : ℝ) (h : i < l.length) :
    (l.set i a).getD i 0 = a := by
  rw [List.getD_eq_getElem?_getD, List.getElem?_set_self h]
  rfl

lemma getD_set_ne (l : List ℝ) {i j : ℕ} (h : i ≠ j) (a : ℝ) :
    (l.set i a).getD j 0 = l.getD j 0 := by
  rw [List.getD_eq_getElem?_getD, List.getElem?_set_ne h,
    ← List.getD_eq_getElem?_getD]

lemma getD_range_map (f : ℕ → ℝ) (T t : ℕ) (ht : t < T) :
    ((List.range T).map f).getD t 0 = f t := by
  rw [List.getD_eq_getElem _ _ (by simpa using ht), List.getElem_map,
    List.getElem_range]

/-- One-step unfolding of the closed-form recurrence. -/
lemma advClosed_eq (gamma lam : ℝ) (delta dones : List ℝ) (T t : ℕ) :
    advClosed gamma lam delta dones T t
      = if t < T then
          delta.getD t 0 + gamma * lam * (1 - dones.getD t 0)
            * advClosed gamma lam delta dones T (t + 1)
        else 0 := by
  rw [advClosed]

lemma gaeLoop_length (gamma lam : ℝ) (delta dones : List ℝ) :
    ∀ (k : ℕ) (st : ℝ × List ℝ),
      ((gaeLoop gamma lam delta dones k st).2).length = st.2.length := by
  intro k
  induction k with
  | zero => intro st; rfl
  | succ k ih =>
    intro st
    rw [gaeLoop, ih]
    exact List.length_set st.2 k _

/-- Loop invariant: running the remaining `k` iterations with the carried
`gae` equal to `advClosed k` fills positions `j < k` with `advClosed j` and
leaves positions `j ≥ k` untouched. -/
lemma gaeLoop_spec (gamma lam : ℝ) (delta dones : List ℝ) (T : ℕ) :
    ∀ (k : ℕ), k ≤ T → ∀ (arr : List ℝ), arr.length = T → ∀ (j : ℕ),
      ((gaeLoop gamma lam delta dones k
          (advClosed gamma lam delta dones T k, arr)).2).getD j 0
        = if j < k then advClosed gamma lam delta dones T j else arr.getD j 0 := by
  intro k
  induction k with
  | zero =>
    intro _ arr _ j
    simp [gaeLoop]
  | succ k ih =>
    intro hk arr harr j
    have hkT : k < T := hk
    have hg : delta.getD k 0 + gamma * lam * (1 - dones.getD k 0)
        * advClosed gamma lam delta dones T (k + 1)
        = advClosed gamma lam delta dones T k := by
      rw [advClosed_eq gamma lam delta dones T k, if_pos hkT]
    rw [gaeLoop]
    simp only [hg]
    have harr' : (arr.set k (advClosed gamma lam delta dones T k)).length = T := by
      rw [List.length_set]; exact harr
    rw [ih (Nat.le_of_succ_le hk) _ harr' j]
    by_cases hjk : j < k
    · rw [if_pos hjk, if_pos (Nat.lt_succ_of_lt hjk)]
    · by_cases hjk' : j = k
      · subst hjk'
        rw [if_neg hjk, if_pos (Nat.lt_succ_self j)]
        exact getD_set_self arr j _ (harr ▸ hkT)
      · have : ¬ j < k + 1 := by omega
        rw [if_neg hjk, if_neg this]
        exact getD_set_ne arr (fun h => hjk' h.symm) _

lemma rawAdvantages_length (gamma lam : ℝ)
    (rewards dones values nextValues : List ℝ) :
    (rawAdvantages gamma lam rewards dones values nextValues).length
      = rewards.length := by
  rw [rawAdvantages, gaeLoop_length]
  exact List.length_replicate _ _

/-- The loop's output array equals the closed-form recurrence at every
in-range index. -/
lemma rawAdvantages_getD (gamma lam : ℝ)
    (rewards dones values nextValues : List ℝ) (t : ℕ) (ht : t < rewards.length) :
    (rawAdvantages gamma lam rewards dones values nextValues).getD t 0
      = advClosed gamma lam (deltaList gamma rewards dones values nextValues)
          dones rewards.length t := by
  have h0 : (0 : ℝ) = advClosed gamma lam
      (deltaList gamma rewards dones values nextValues) dones
      rewards.length rewards.length := by
    rw [advClosed_eq, if_neg (lt_irrefl _)]
  rw [rawAdvantages]
  nth_rewrite 1 [h0]
  rw [gaeLoop_spec gamma lam _ dones rewards.length rewards.length le_rfl
      (List.replicate rewards.length 0) (List.length_replicate _ _) t,
    if_pos ht]

lemma list_sum_eq_getD_sum (l : List ℝ) :
    l.sum = ∑ t in Finset.range l.length, l.getD t 0 := by
  induction l with
  | nil => simp
  | cons x l ih =>
    rw [List.sum_cons, List.length_cons, Finset.sum_range_succ']
    simp only [List.getD_cons_succ, List.getD_cons_zero]
    rw [← ih]
    ring

lemma getD_zipWith (f : ℝ → ℝ → ℝ) (xs ys : List ℝ) (t : ℕ)
    (hx : t < xs.length) (hy : t < ys.length) :
    (List.zipWith f xs ys).getD t 0 = f (xs.getD t 0) (ys.getD t 0) := by
  have hlen : t < (List.zipWith f xs ys).length := by
    rw [List.length_zipWith]
    exact lt_min hx hy
  rw [List.getD_eq_getElem _ _ hlen, List.getElem_zipWith,
    List.getD_eq_getElem _ _ hx, List.getD_eq_getElem _ _ hy]

lemma npMean_zipWith (f : ℝ → ℝ → ℝ) (xs ys : List ℝ)
    (h : ys.length = xs.length) :
    npMean (List.zipWith f xs ys)
      = (∑ t in Finset.range xs.length, f (xs.getD t 0) (ys.getD t 0))
          / xs.length := by
  have hlen : (List.zipWith f xs ys).length = xs.length := by
    rw [List.length_zipWith, h, min_self]
  rw [npMean, hlen, list_sum_eq_getD_sum, hlen]
  congr 1
  apply Finset.sum_congr rfl
  intro t ht
  have htx : t < xs.length := Finset.mem_range.mp ht
  exact getD_zipWith f xs ys t htx (h ▸ htx)

/-- A list of length one is determined by its first `getD` entry. -/
lemma eq_single {l : List ℝ} {a : ℝ} (hlen : l.length = 1)
    (h0 : l.getD 0 0 = a) : l = [a] := by
  match l with
  | [x] =>
    rw [List.getD_cons_zero] at h0
    rw [h0]
  | [] => simp at hlen
  | _ :: _ :: _ => simp at hlen

/-- A list of length three is determined by its first three `getD` entries. -/
lemma eq_triple {l : List ℝ} {a b c : ℝ} (hlen : l.length = 3)
    (h0 : l.getD 0 0 = a) (h1 : l.getD 1 0 = b) (h2 : l.getD 2 0 = c) :
    l = [a, b, c] := by
  match l with
  | [x, y, z] =>
    simp only [List.getD_cons_zero, List.getD_cons_succ] at h0 h1 h2
    rw [h0, h1, h2]
  | [] | [_] | [_, _] => simp at hlen
  | _ :: _ :: _ :: _ :: _ => simp at hlen

/-! Section: mean, variance and standard deviation of an affinely transformed list. -/

lemma list_sum_map_affine (xs : List ℝ) (m s : ℝ) :
    (xs.map (fun a => (a - m) / s)).sum = (xs.sum - xs.length * m) / s := by
  induction xs with
  | nil => simp
  | cons x xs ih =>
    simp only [List.map_cons, List.sum_cons, ih, List.length_cons]
    push_cast
    ring

lemma list_sum_map_sq_div (xs : List ℝ) (m s : ℝ) :
    (xs.map (fun a => ((a - m) / s) ^ 2)).sum
      = (xs.map (fun a => (a - m) ^ 2)).sum / s ^ 2 := by
  induction xs with
  | nil => simp
  | cons x xs ih =>
    simp only [List.map_cons, List.sum_cons, ih]
    rw [div_pow]
    ring

lemma length_cast_ne_zero {xs : List ℝ} (hxs : xs ≠ []) :
    (xs.length : ℝ) ≠ 0 := by
  have := List.length_pos.mpr hxs
  positivity

lemma npMean_map_affine (xs : List ℝ) (hxs : xs ≠ []) (m s : ℝ) :
    npMean (xs.map fun a => (a - m) / s) = (npMean xs - m) / s := by
  have hn := length_cast_ne_zero hxs
  rw [npMean, List.length_map, list_sum_map_affine, npMean, div_div,
    mul_comm s (xs.length : ℝ), ← div_div, sub_div,
    mul_div_cancel_left₀ m hn]

lemma npMean_center (xs : List ℝ) (hxs : xs ≠ []) (s : ℝ) :
    npMean (xs.map fun a => (a - npMean xs) / s) = 0 := by
  rw [npMean_map_affine xs hxs _ s, sub_self, zero_div]

lemma npVar_map_center (xs : List ℝ) (hxs : xs ≠ []) (s : ℝ) :
    npVar (xs.map fun a => (a - npMean xs) / s) = npVar xs / s ^ 2 := by
  rw [npVar, npMean_center xs hxs s, List.length_map, List.map_map]
  have : ((fun x => (x - 0) ^ 2) ∘ fun a => (a - npMean xs) / s)
      = fun a => ((a - npMean xs) / s) ^ 2 := by
    funext a
    simp
  rw [this, list_sum_map_sq_div, npVar]
  ring

lemma npVar_nonneg (xs : List ℝ) : 0 ≤ npVar xs := by
  rw [npVar]
  apply div_nonneg _ (by positivity)
  apply List.sum_nonneg
  intro x hx
  obtain ⟨a, _, rfl⟩ := List.mem_map.mp hx
  positivity

lemma npStd_nonneg (xs : List ℝ) : 0 ≤ npStd xs := Real.sqrt_nonneg _

lemma npStd_map_center (xs : List ℝ) (hxs : xs ≠ []) (s : ℝ) (hs : 0 < s) :
    npStd (xs.map fun a => (a - npMean xs) / s) = npStd xs / s := by
  rw [npStd, npVar_map_center xs hxs s,
    Real.sqrt_div (npVar_nonneg xs), Real.sqrt_sq (le_of_lt hs), npStd]

end RLFramework

namespace RLFramework

/-- Claim C1: for every index-aligned trajectory batch of length `T ≥ 1`,
`preprocess_data` computes `delta[t] = reward[t] + GAMMA * next_value[t] *
(1 - done[t]) - value[t]` and the pre-normalization advantage by the backward
recurrence `gae = delta[t] + GAMMA * LAMBDA * (1 - done[t]) * gae` for `t` from
`T-1` down to `0` with `gae` initialized to `0`; in particular on
`rewards = [1,1,1]`, `dones = [0,0,1]`, `values = next_values = [0,0,0]`,
`GAMMA = 0.99`, `LAMBDA = 0.95` the pre-normalization advantages are
`[1 + 0.99*0.95*1.9405, 1 + 0.99*0.95*1, 1]`. -/
theorem preprocess_data_gae_recurrence :
    (∀ (gamma lam : ℝ) (rewards dones values nextValues : List ℝ),
        dones.length = rewards.length → values.length = rewards.length →
        nextValues.length = rewards.length → 1 ≤ rewards.length →
        ∀ t, t < rewards.length →
          (rawAdvantages gamma lam rewards dones values nextValues).getD t 0
            = (rewards.getD t 0
                + gamma * nextValues.getD t 0 * (1 - dones.getD t 0)
                - values.getD t 0)
              + gamma * lam * (1 - dones.getD t 0)
                * (rawAdvantages gamma lam rewards dones values nextValues).getD
                    (t + 1) 0)
    ∧ rawAdvantages 0.99 0.95 [1, 1, 1] [0, 0, 1] [0, 0, 0] [0, 0, 0]
        = [1 + 0.99 * 0.95 * 1.9405, 1 + 0.99 * 0.95 * 1, 1] := by
  constructor
  · intro gamma lam rewards dones values nextValues _ _ _ _ t ht
    rw [rawAdvantages_getD gamma lam rewards dones values nextValues t ht,
      advClosed_eq, if_pos ht, deltaList, getD_range_map _ _ t ht]
    congr 1
    by_cases h : t + 1 < rewards.length
    · rw [rawAdvantages_getD gamma lam rewards dones values nextValues _ h,
        deltaList]
    · rw [advClosed_eq, if_neg h,
        List.getD_eq_default
          (rawAdvantages gamma lam rewards dones values nextValues) 0
          (show (rawAdvantages gamma lam rewards dones values
              nextValues).length ≤ t + 1 by rw [rawAdvantages_length]; omega)]
  · have hT : (([1, 1, 1] : List ℝ)).length = 3 := rfl
    have hdelta : deltaList (0.99 : ℝ) [1, 1, 1] [0, 0, 1] [0, 0, 0] [0, 0, 0]
        = [1, 1, 1] := by
      rw [deltaList, hT]
      have hrange : List.range 3 = [0, 1, 2] := rfl
      rw [hrange]
      norm_num [List.getD]
    have hA3 : advClosed (0.99 : ℝ) 0.95 [1, 1, 1] [0, 0, 1] 3 3 = 0 := by
      rw [advClosed_eq, if_neg (lt_irrefl 3)]
    have hA2 : advClosed (0.99 : ℝ) 0.95 [1, 1, 1] [0, 0, 1] 3 2 = 1 := by
      rw [advClosed_eq, if_pos (by norm_num : (2 : ℕ) < 3)]
      rw [show (2 : ℕ) + 1 = 3 from rfl, hA3]
      norm_num [List.getD]
    have hA1 : advClosed (0.99 : ℝ) 0.95 [1, 1, 1] [0, 0, 1] 3 1
        = 1 + 0.99 * 0.95 * 1 := by
      rw [advClosed_eq, if_pos (by norm_num : (1 : ℕ) < 3)]
      rw [show (1 : ℕ) + 1 = 2 from rfl, hA2]
      norm_num [List.getD]
    have hA0 : advClosed (0.99 : ℝ) 0.95 [1, 1, 1] [0, 0, 1] 3 0
        = 1 + 0.99 * 0.95 * 1.9405 := by
      rw [advClosed_eq, if_pos (by norm_num : (0 : ℕ) < 3)]
      rw [show (0 : ℕ) + 1 = 1 from rfl, hA1]
      norm_num [List.getD]
    refine eq_triple (by rw [rawAdvantages_length]; rfl) ?_ ?_ ?_
    · rw [rawAdvantages_getD _ _ _ _ _ _ 0 (by norm_num), hdelta, hT, hA0]
    · rw [rawAdvantages_getD _ _ _ _ _ _ 1 (by norm_num), hdelta, hT, hA1]
    · rw [rawAdvantages_getD _ _ _ _ _ _ 2 (by norm_num), hdelta, hT, hA2]

lemma preprocess_data_fst (gamma lam : ℝ)
    (rewards dones values nextValues : List ℝ) :
    (preprocess_data gamma lam rewards dones values nextValues).1
      = (rawAdvantages gamma lam rewards dones values nextValues).map
          (fun a =>
            (a - npMean (rawAdvantages gamma lam rewards dones values
                nextValues))
              / (if 1 < (rawAdvantages gamma lam rewards dones values
                    nextValues).length
                 then npStd (rawAdvantages gamma lam rewards dones values
                    nextValues) + 1e-8
                 else 1)) := rfl

lemma preprocess_data_snd (gamma lam : ℝ)
    (rewards dones values nextValues : List ℝ) :
    (preprocess_data gamma lam rewards dones values nextValues).2
      = List.zipWith (· + ·)
          (preprocess_data gamma lam rewards dones values nextValues).1
          values := rfl

/-- Claim C2: the advantage array returned by `preprocess_data` is normalized:
for `T > 1` it equals `(advantage - mean) / (std + 1e-8)`, its mean is `0` and
its standard deviation is `std_raw / (std_raw + 1e-8)` (approximately `1` up to
the `1e-8` floor); for `T = 1` it is mean-centered only, hence exactly `[0]`
with no division by a zero variance. -/
theorem preprocess_data_normalization
    (gamma lam : ℝ) (rewards dones values nextValues : List ℝ)
    (hdn : dones.length = rewards.length)
    (hvs : values.length = rewards.length)
    (hnv : nextValues.length = rewards.length) :
    (1 < rewards.length →
        (preprocess_data gamma lam rewards dones values nextValues).1
          = (rawAdvantages gamma lam rewards dones values nextValues).map
              (fun a =>
                (a - npMean (rawAdvantages gamma lam rewards dones values
                    nextValues))
                  / (npStd (rawAdvantages gamma lam rewards dones values
                      nextValues) + 1e-8))
        ∧ npMean (preprocess_data gamma lam rewards dones values
            nextValues).1 = 0
        ∧ npStd (preprocess_data gamma lam rewards dones values nextValues).1
            * (npStd (rawAdvantages gamma lam rewards dones values nextValues)
                + 1e-8)
            = npStd (rawAdvantages gamma lam rewards dones values nextValues))
    ∧ (rewards.length = 1 →
        (preprocess_data gamma lam rewards dones values nextValues).1
          = [0]) := by
  set raw := rawAdvantages gamma lam rewards dones values nextValues with hraw
  have hlen : raw.length = rewards.length := by
    rw [hraw]; exact rawAdvantages_length gamma lam rewards dones values
      nextValues
  constructor
  · intro hT
    have hne : raw ≠ [] := by
      intro h
      rw [h] at hlen
      simp at hlen
      omega
    have hstdpos : (0 : ℝ) < npStd raw + 1e-8 :=
      add_pos_of_nonneg_of_pos (npStd_nonneg raw) (by norm_num)
    have hcond : (if 1 < raw.length then npStd raw + 1e-8 else 1)
        = npStd raw + 1e-8 := if_pos (hlen ▸ hT)
    have hfst : (preprocess_data gamma lam rewards dones values nextValues).1
        = raw.map (fun a => (a - npMean raw) / (npStd raw + 1e-8)) := by
      rw [preprocess_data_fst, ← hraw, hcond]
    refine ⟨hfst, ?_, ?_⟩
    · rw [hfst]
      exact npMean_center raw hne (npStd raw + 1e-8)
    · rw [hfst, npStd_map_center raw hne _ hstdpos,
        div_mul_cancel₀ _ (ne_of_gt hstdpos)]
  · intro hT1
    have h1 : raw.length = 1 := by rw [hlen, hT1]
    obtain ⟨x, hx⟩ := List.length_eq_one.mp h1
    have hcond : (if 1 < raw.length then npStd raw + 1e-8 else 1) = 1 :=
      if_neg (by rw [h1]; exact lt_irrefl 1)
    rw [preprocess_data_fst, ← hraw, hcond, hx]
    simp [npMean]

/-- Witness for C2: the normalized advantage of the batch
`rewards = [1, 2]` (zeros elsewhere) has mean `0`. -/
theorem preprocess_data_normalization_witness :
    npMean ((preprocess_data 0.99 0.95 [1, 2] [0, 0] [0, 0] [0, 0]).1) = 0 :=
  ((preprocess_data_normalization 0.99 0.95 [1, 2] [0, 0] [0, 0] [0, 0]
      rfl rfl rfl).1 (by norm_num)).2.1

/-- Witness for C1: the recurrence instantiated at the example batch, `t = 1`. -/
theorem preprocess_data_gae_recurrence_witness :
    (rawAdvantages 0.99 0.95 [1, 1, 1] [0, 0, 1] [0, 0, 0] [0, 0, 0]).getD 1 0
      = (([1, 1, 1] : List ℝ).getD 1 0
          + 0.99 * ([0, 0, 0] : List ℝ).getD 1 0
            * (1 - ([0, 0, 1] : List ℝ).getD 1 0)
          - ([0, 0, 0] : List ℝ).getD 1 0)
        + 0.99 * 0.95 * (1 - ([0, 0, 1] : List ℝ).getD 1 0)
          * (rawAdvantages 0.99 0.95 [1, 1, 1] [0, 0, 1] [0, 0, 0]
              [0, 0, 0]).getD 2 0 :=
  preprocess_data_gae_recurrence.1 0.99 0.95 [1, 1, 1] [0, 0, 1] [0, 0, 0]
    [0, 0, 0] rfl rfl rfl (by norm_num) 1 (by norm_num)

/-- Claim C3: the actor loss computed by `train_model` is the negated mean of
the elementwise minimum of `surrogate1 = ratio * advantage` and
`surrogate2 = clip(ratio, 1-EPS_CLIP, 1+EPS_CLIP) * advantage`, with
`ratio = exp(new_log_prob - old_log_prob)`, and the critic loss is the mean
squared error between `td_target` and the current value estimate. -/
theorem train_model_loss_formulas (epsClip : ℝ)
    (advantage tdTarget oldLogProb newLogProb value : List ℝ)
    (hold : oldLogProb.length = advantage.length)
    (hnew : newLogProb.length = advantage.length)
    (htd : tdTarget.length = advantage.length)
    (hval : value.length = advantage.length) :
    (train_model_losses epsClip advantage tdTarget oldLogProb newLogProb
        value).1
      = -((∑ t in Finset.range advantage.length,
            min (Real.exp (newLogProb.getD t 0 - oldLogProb.getD t 0)
                  * advantage.getD t 0)
                (min (max (Real.exp (newLogProb.getD t 0
                        - oldLogProb.getD t 0))
                      (1 - epsClip)) (1 + epsClip) * advantage.getD t 0))
          / advantage.length)
    ∧ (train_model_losses epsClip advantage tdTarget oldLogProb newLogProb
        value).2
      = (∑ t in Finset.range advantage.length,
          (tdTarget.getD t 0 - value.getD t 0) ^ 2) / advantage.length := by
  have hR : (List.zipWith (fun n o => Real.exp (n - o)) newLogProb
      oldLogProb).length = advantage.length := by
    rw [List.length_zipWith, hnew, hold, min_self]
  have hPG : (List.zipWith (· * ·)
      (List.zipWith (fun n o => Real.exp (n - o)) newLogProb oldLogProb)
      advantage).length = advantage.length := by
    rw [List.length_zipWith, hR, min_self]
  have hCL : (List.zipWith
      (fun r a => min (max r (1 - epsClip)) (1 + epsClip) * a)
      (List.zipWith (fun n o => Real.exp (n - o)) newLogProb oldLogProb)
      advantage).length = advantage.length := by
    rw [List.length_zipWith, hR, min_self]
  constructor
  · have h1 : (train_model_losses epsClip advantage tdTarget oldLogProb
        newLogProb value).1
        = -(npMean (List.zipWith min
            (List.zipWith (· * ·)
              (List.zipWith (fun n o => Real.exp (n - o)) newLogProb
                oldLogProb) advantage)
            (List.zipWith
              (fun r a => min (max r (1 - epsClip)) (1 + epsClip) * a)
              (List.zipWith (fun n o => Real.exp (n - o)) newLogProb
                oldLogProb) advantage))) := rfl
    rw [h1, npMean_zipWith min _ _ (hCL.trans hPG.symm), hPG]
    congr 2
    apply Finset.sum_congr rfl
    intro t ht
    have ht' : t < advantage.length := Finset.mem_range.mp ht
    rw [getD_zipWith (· * ·) _ advantage t (hR ▸ ht') ht',
      getD_zipWith _ _ advantage t (hR ▸ ht') ht',
      getD_zipWith _ newLogProb oldLogProb t (hnew ▸ ht') (hold ▸ ht')]
  · have h2 : (train_model_losses epsClip advantage tdTarget oldLogProb
        newLogProb value).2
        = npMean (List.zipWith (fun t v => (t - v) ^ 2) tdTarget value) := rfl
    rw [h2, npMean_zipWith _ _ _ (hval.trans htd.symm), htd]

/-- Witness for C3: the loss formulas instantiated at a singleton batch. -/
theorem train_model_loss_formulas_witness :
    (train_model_losses 0.2 [2] [1] [0] [0] [1]).2
      = (∑ t in Finset.range (([2] : List ℝ).length),
          (([1] : List ℝ).getD t 0 - ([1] : List ℝ).getD t 0) ^ 2)
          / (([2] : List ℝ).length) :=
  (train_model_loss_formulas 0.2 [2] [1] [0] [0] [1] rfl rfl rfl rfl).2

/-- Claim C4: the `td_target` array returned by `preprocess_data` equals,
index by index, the normalized advantage plus the critic's value estimate of
the corresponding state. -/
theorem preprocess_data_td_target (gamma lam : ℝ)
    (rewards dones values nextValues : List ℝ)
    (hdn : dones.length = rewards.length)
    (hvs : values.length = rewards.length)
    (hnv : nextValues.length = rewards.length)
    (t : ℕ) (ht : t < rewards.length) :
    (preprocess_data gamma lam rewards dones values nextValues).2.getD t 0
      = (preprocess_data gamma lam rewards dones values nextValues).1.getD t 0
        + values.getD t 0 := by
  rw [preprocess_data_snd]
  apply getD_zipWith
  · rw [preprocess_data_fst, List.length_map, rawAdvantages_length]
    exact ht
  · rw [hvs]
    exact ht

/-- Witness for C4: `td_target = advantage + value` at the example batch,
index `2`. -/
theorem preprocess_data_td_target_witness :
    (preprocess_data 0.99 0.95 [1, 1, 1] [0, 0, 1] [0, 0, 0] [0, 0, 0]).2.getD
        2 0
      = (preprocess_data 0.99 0.95 [1, 1, 1] [0, 0, 1] [0, 0, 0]
          [0, 0, 0]).1.getD 2 0
        + ([0, 0, 0] : List ℝ).getD 2 0 :=
  preprocess_data_td_target 0.99 0.95 [1, 1, 1] [0, 0, 1] [0, 0, 0] [0, 0, 0]
    rfl rfl rfl 2 (by norm_num)

/-- Counterexample to C5 as stated: with `LAMBDA = 0` the advantage array
actually returned by `preprocess_data` (which is normalized) differs from the
TD residual array `delta`.  On `rewards = [1]`, `dones = values =
next_values = [0]`, `GAMMA = 0.99`, the returned advantage is `[0]` while
`delta = [1]`. -/
theorem preprocess_data_lambda_zero_counterexample :
    (preprocess_data 0.99 0 [1] [0] [0] [0]).1
      ≠ deltaList 0.99 [1] [0] [0] [0] := by
  have hdelta : deltaList (0.99 : ℝ) [1] [0] [0] [0] = [1] := by
    rw [deltaList]
    have hrange : List.range (([1] : List ℝ).length) = [0] := rfl
    rw [hrange]
    norm_num [List.getD]
  have hlen : (rawAdvantages (0.99 : ℝ) 0 [1] [0] [0] [0]).length = 1 := by
    rw [rawAdvantages_length]
    rfl
  have hraw : rawAdvantages (0.99 : ℝ) 0 [1] [0] [0] [0] = [1] := by
    refine eq_single hlen ?_
    rw [rawAdvantages_getD _ _ _ _ _ _ 0 (by norm_num), advClosed_eq,
      if_pos (by norm_num : 0 < ([1] : List ℝ).length), hdelta, advClosed_eq]
    norm_num [List.getD]
  have hcond : ¬ (1 < (rawAdvantages (0.99 : ℝ) 0 [1] [0] [0] [0]).length) := by
    rw [hlen]
    exact lt_irrefl 1
  have hfst : (preprocess_data (0.99 : ℝ) 0 [1] [0] [0] [0]).1 = [0] := by
    rw [preprocess_data_fst, if_neg hcond, hraw]
    simp [npMean]
  rw [hfst, hdelta]
  simp

/-- Claim C5 (amended): the pre-normalization advantage reduces to the
one-step TD residual `delta[t]` when `LAMBDA = 0`, and to
`reward[t] - value[t]` when `GAMMA = 0`, at every in-range index. -/
theorem rawAdvantages_degenerate_params (gamma lam : ℝ)
    (rewards dones values nextValues : List ℝ)
    (hdn : dones.length = rewards.length)
    (hvs : values.length = rewards.length)
    (hnv : nextValues.length = rewards.length)
    (t : ℕ) (ht : t < rewards.length) :
    (rawAdvantages gamma 0 rewards dones values nextValues).getD t 0
      = (deltaList gamma rewards dones values nextValues).getD t 0
    ∧ (rawAdvantages 0 lam rewards dones values nextValues).getD t 0
      = rewards.getD t 0 - values.getD t 0 := by
  constructor
  · rw [rawAdvantages_getD _ _ _ _ _ _ t ht, advClosed_eq, if_pos ht]
    ring
  · rw [rawAdvantages_getD _ _ _ _ _ _ t ht, advClosed_eq, if_pos ht,
      deltaList, getD_range_map _ _ t ht]
    ring

/-- Witness for the amended C5 at a concrete two-step batch, index `0`. -/
theorem rawAdvantages_degenerate_params_witness :
    (rawAdvantages 0.99 0 [1, 2] [0, 0] [3, 4] [0, 0]).getD 0 0
      = (deltaList 0.99 [1, 2] [0, 0] [3, 4] [0, 0]).getD 0 0
    ∧ (rawAdvantages 0 0.95 [1, 2] [0, 0] [3, 4] [0, 0]).getD 0 0
      = ([1, 2] : List ℝ).getD 0 0 - ([3, 4] : List ℝ).getD 0 0 :=
  rawAdvantages_degenerate_params 0.99 0.95 [1, 2] [0, 0] [3, 4] [0, 0]
    rfl rfl rfl 0 (by norm_num)

/-- Claim C6: in `train_model`, each gradient buffer is cleared before that
network's loss is backpropagated (so the buffer afterwards holds exactly the
fresh gradient), and the two optimization steps are isolated: the actor phase
leaves every critic component unchanged and updates the actor parameters and
optimizer state from the actor gradient alone; the critic phase then updates
only the critic components. -/
theorem train_model_gradient_isolation (P O : Type)
    (stepA stepC : P → ℝ → O → P × O) (gA gC : ℝ) (s : OptPhaseState P O) :
    ((actor_phase stepA gA s).criticParams = s.criticParams
      ∧ (actor_phase stepA gA s).criticGrad = s.criticGrad
      ∧ (actor_phase stepA gA s).criticOpt = s.criticOpt)
    ∧ (actor_phase stepA gA s).actorGrad = gA
    ∧ (actor_phase stepA gA s).actorParams
        = (stepA s.actorParams gA s.actorOpt).1
    ∧ (actor_phase stepA gA s).actorOpt
        = (stepA s.actorParams gA s.actorOpt).2
    ∧ ((train_model_opt_phase stepA stepC gA gC s).actorParams
        = (actor_phase stepA gA s).actorParams
      ∧ (train_model_opt_phase stepA stepC gA gC s).actorOpt
        = (actor_phase stepA gA s).actorOpt
      ∧ (train_model_opt_phase stepA stepC gA gC s).actorGrad
        = (actor_phase stepA gA s).actorGrad)
    ∧ (train_model_opt_phase stepA stepC gA gC s).criticGrad = gC
    ∧ (train_model_opt_phase stepA stepC gA gC s).criticParams
        = (stepC s.criticParams gC s.criticOpt).1
    ∧ (train_model_opt_phase stepA stepC gA gC s).criticOpt
        = (stepC s.criticParams gC s.criticOpt).2 := by
  simp [train_model_opt_phase, actor_phase, critic_phase]

/-- Witness for C6: the isolation properties at a concrete optimizer and
state. -/
theorem train_model_gradient_isolation_witness :
    (train_model_opt_phase (fun p g o => (p - g, o + 1))
        (fun p g o => (p - 2 * g, o + 2)) 3 5
        (⟨10, 20, 7, 8, 0, 0⟩ : OptPhaseState ℝ ℝ)).criticParams
      = ((fun (p g o : ℝ) => (p - 2 * g, o + 2)) 20 5 0).1 :=
  (train_model_gradient_isolation ℝ ℝ (fun p g o => (p - g, o + 1))
    (fun p g o => (p - 2 * g, o + 2)) 3 5 ⟨10, 20, 7, 8, 0, 0⟩).2.2.2.2.2.2.1

/-- Claim C7: a missing checkpoint file is non-fatal (warning, freshly
initialized weights kept), while a checkpoint that exists but is malformed
(missing key or architecture mismatch, in either entry) raises an uncaught
exception. -/
theorem load_model_error_handling (fs : String → Option Checkpoint)
    (path : String) (m : ModelState) :
    (fs path = none → load_model fs path m = (m, .missingFile))
    ∧ (∀ ckpt, fs path = some ckpt →
        (ckpt.actor = none
          ∨ (∃ sd, ckpt.actor = some sd ∧ sd.shape ≠ m.actor.shape)
          ∨ ckpt.critic = none
          ∨ (∃ sd, ckpt.critic = some sd ∧ sd.shape ≠ m.critic.shape)) →
        ∃ e, (load_model fs path m).2 = LoadOutcome.raised e) := by
  constructor
  · intro h
    simp [load_model, h]
  · intro ckpt hck hbad
    rcases hbad with hA | ⟨sd, hsd, hne⟩ | hC | ⟨sd, hsd, hne⟩
    · exact ⟨.keyError, by simp [load_model, hck, hA, dictGet]⟩
    · exact ⟨.loadMismatch,
        by simp [load_model, hck, hsd, dictGet, load_state_dict, hne]⟩
    · rcases hA' : ckpt.actor with _ | sdA
      · exact ⟨.keyError, by simp [load_model, hck, hA', dictGet]⟩
      · by_cases hsh : sdA.shape = m.actor.shape
        · exact ⟨.keyError, by simp [load_model, hck, hA', hC, dictGet,
            load_state_dict, hsh]⟩
        · exact ⟨.loadMismatch, by simp [load_model, hck, hA', dictGet,
            load_state_dict, hsh]⟩
    · rcases hA' : ckpt.actor with _ | sdA
      · exact ⟨.keyError, by simp [load_model, hck, hA', dictGet]⟩
      · by_cases hsh : sdA.shape = m.actor.shape
        · exact ⟨.loadMismatch, by simp [load_model, hck, hA', hsd, dictGet,
            load_state_dict, hsh, hne]⟩
        · exact ⟨.loadMismatch, by simp [load_model, hck, hA', dictGet,
            load_state_dict, hsh]⟩

/-- Witness for C7: loading from an empty file system leaves a concrete
container untouched and reports the missing file. -/
theorem load_model_error_handling_witness :
    load_model (fun _ => none) "model.pt" ⟨⟨0, []⟩, ⟨0, []⟩⟩
      = (⟨⟨0, []⟩, ⟨0, []⟩⟩, .missingFile) :=
  (load_model_error_handling (fun _ => none) "model.pt"
    ⟨⟨0, []⟩, ⟨0, []⟩⟩).1 rfl

/-- Claim C8: `save_model` writes a blob holding exactly the unwrapped
`actor` and `critic` parameter states, and the save-then-load round trip into
a freshly constructed container of identical architecture restores exactly
those states, hence reproduces identical network outputs on every input. -/
theorem save_model_roundtrip (actor critic : Network) (fresh : ModelState)
    (path : String)
    (hA : fresh.actor.shape = actor.unwrapped.shape)
    (hC : fresh.critic.shape = critic.unwrapped.shape) :
    (save_model actor critic).actor = some actor.unwrapped
    ∧ (save_model actor critic).critic = some critic.unwrapped
    ∧ load_model (fun _ => some (save_model actor critic)) path fresh
        = (⟨actor.unwrapped, critic.unwrapped⟩, .success)
    ∧ ∀ (forwardA forwardC : StateDict → ℚ → ℚ) (x : ℚ),
        forwardA (load_model (fun _ => some (save_model actor critic)) path
            fresh).1.actor x
          = forwardA actor.unwrapped x
        ∧ forwardC (load_model (fun _ => some (save_model actor critic)) path
            fresh).1.critic x
          = forwardC critic.unwrapped x := by
  have hload : load_model (fun _ => some (save_model actor critic)) path fresh
      = (⟨actor.unwrapped, critic.unwrapped⟩, .success) := by
    simp [load_model, save_model, dictGet, load_state_dict, hA, hC]
  refine ⟨rfl, rfl, hload, ?_⟩
  intro forwardA forwardC x
  rw [hload]
  exact ⟨rfl, rfl⟩

/-- Witness for C8: round trip of a concrete container (the actor behind a
distributed wrapper, the critic bare) into a fresh container of the same
architecture. -/
theorem save_model_roundtrip_witness :
    load_model
        (fun _ => some (save_model (.wrapped ⟨1, [2]⟩) (.raw ⟨2, [3]⟩)))
        "model.pt" ⟨⟨1, [0]⟩, ⟨2, [0]⟩⟩
      = (⟨⟨1, [2]⟩, ⟨2, [3]⟩⟩, .success) :=
  (save_model_roundtrip (.wrapped ⟨1, [2]⟩) (.raw ⟨2, [3]⟩)
    ⟨⟨1, [0]⟩, ⟨2, [0]⟩⟩ "model.pt" rfl rfl).2.2.1

/-- Claim C9, evaluated against the code: `Worker.prepare_model` binds the
wrapped networks to new attributes on the `Worker` object, but the networks
that subsequent `train_model` / `save_model` calls operate on — those of
`self.model` — are left untouched; in particular, after preparing a concrete
worker with a wrapping adapter, the active actor is still the original raw
state. -/
theorem prepare_model_does_not_rebind_active_networks :
    (∀ (wrap : StateDict → Network) (w : Worker),
        Worker.activeNetworks (prepare_model wrap w) = Worker.activeNetworks w
        ∧ (prepare_model wrap w).actorAttr = some (wrap w.model.actor)
        ∧ (prepare_model wrap w).criticAttr = some (wrap w.model.critic))
    ∧ (Worker.activeNetworks
        (prepare_model Network.wrapped
          ⟨⟨⟨1, [5]⟩, ⟨1, [7]⟩⟩, none, none⟩)).actor = ⟨1, [5]⟩ :=
  ⟨fun _ _ => ⟨rfl, rfl, rfl⟩, rfl⟩

/-- Claim C10: `load_model` is not atomic on error: a checkpoint with a
well-formed `actor` entry but a missing or mismatched `critic` entry raises
only after the actor parameters have been overwritten, leaving the container
partially loaded. -/
theorem load_model_not_atomic (fs : String → Option Checkpoint)
    (path : String) (m : ModelState) (ckpt : Checkpoint) (sdA : StateDict)
    (hck : fs path = some ckpt) (hA : ckpt.actor = some sdA)
    (hsh : sdA.shape = m.actor.shape)
    (hC : ckpt.critic = none
      ∨ ∃ sdC, ckpt.critic = some sdC ∧ sdC.shape ≠ m.critic.shape) :
    (load_model fs path m).1.actor = sdA
    ∧ (load_model fs path m).1.critic = m.critic
    ∧ ∃ e, (load_model fs path m).2 = LoadOutcome.raised e := by
  rcases hC with hC | ⟨sdC, hsdC, hne⟩
  · refine ⟨?_, ?_, .keyError, ?_⟩ <;>
      simp [load_model, hck, hA, hC, dictGet, load_state_dict, hsh]
  · refine ⟨?_, ?_, .loadMismatch, ?_⟩ <;>
      simp [load_model, hck, hA, hsdC, dictGet, load_state_dict, hsh, hne]

/-- Witness for C10: a concrete checkpoint with a matching actor entry and no
critic key overwrites the actor, keeps the critic, and raises. -/
theorem load_model_not_atomic_witness :
    (load_model (fun _ => some ⟨some ⟨1, [9]⟩, none⟩) "model.pt"
        ⟨⟨1, [0]⟩, ⟨2, [0]⟩⟩).1.actor = ⟨1, [9]⟩
    ∧ (load_model (fun _ => some ⟨some ⟨1, [9]⟩, none⟩) "model.pt"
        ⟨⟨1, [0]⟩, ⟨2, [0]⟩⟩).1.critic = ⟨2, [0]⟩
    ∧ ∃ e, (load_model (fun _ => some ⟨some ⟨1, [9]⟩, none⟩) "model.pt"
        ⟨⟨1, [0]⟩, ⟨2, [0]⟩⟩).2 = LoadOutcome.raised e :=
  load_model_not_atomic (fun _ => some ⟨some ⟨1, [9]⟩, none⟩) "model.pt"
    ⟨⟨1, [0]⟩, ⟨2, [0]⟩⟩ ⟨some ⟨1, [9]⟩, none⟩ ⟨1, [9]⟩ rfl rfl rfl
    (Or.inl rfl)

end RLFramework
